import Mathlib

/-!
Verification of the THESIS_PANK histopathology pipeline.

This file gives a shallow embedding of the repository's feature-extraction
scripts (`03_uni2_feature_extraction_NEW2.py` and the older
`03_uni2_feature_extraction.py`), of the TRIDENT segmentation wrapper
(`run_trident_segmentation.py`), and of the UMAP/K-means script
(`04_05_umap_3d_kmeans30.py`), and proves or refutes the specification
claims about them.

Modelling conventions:
* file names are lists of characters (Python `str`);
* the external image decoder (`PIL.Image.open(...).convert('RGB')`) is a
  parameter `decode : FileName → Option T`, where `none` models a decode
  exception;
* the pretrained encoder is a parameter `encode : T → List R` producing one
  vector per image, together with a batch-level success predicate
  `inferOk : List T → Bool` modelling whether the `images.to(device)` /
  `model(images)` step of a batch raises (caught per batch in the NEW2
  script);
* exceptions are modelled with `Except Err`;
* external libraries (UMAP, K-means) are opaque function parameters.
-/

namespace Pank

/-- A file name, modelled as the sequence of its characters (a Python `str`). -/
abbrev FileName := List Char

/-- Exceptions raised by the pipeline scripts.  Each constructor corresponds to
one `raise` site (or uncaught library error) in the source. -/
inductive Err where
  /-- `FileNotFoundError` raised by `ImageDataset.__init__` when the image
  directory does not exist (NEW2 script). -/
  | dirNotFound
  /-- `ValueError("No valid images found ...")` raised by
  `ImageDataset.__init__` when the enumeration is empty (NEW2 script). -/
  | noValidImages
  /-- The exception logged and re-raised by `ImageDataset.__getitem__` when
  decoding image `p` fails (NEW2 script). -/
  | loadImage (p : FileName)
  /-- The `TypeError` raised by the DataLoader's default collate function when
  `PatchDataset.__getitem__` returned `(None, p)` for an undecodable image `p`
  (older script). -/
  | collateFailure (p : FileName)
  /-- `RuntimeError("No embeddings were successfully extracted")` raised by
  `extract_embeddings` when no batch contributed vectors (NEW2 script). -/
  | noEmbeddings
  /-- The `ValueError` raised by `np.vstack([])` in `extract_features` when no
  batch was processed (older script). -/
  | vstackEmpty
deriving DecidableEq, Repr

/-- Phase of a run at which an exception is raised: at dataset construction
(before any image processing), while loading images, or at the final
aggregation step. -/
inductive Phase where
  | construction
  | loading
  | aggregation
deriving DecidableEq, Repr

/-- The phase at which each modelled exception is raised in the source. -/
def phaseOfErr : Err → Phase
  | .dirNotFound => .construction
  | .noValidImages => .construction
  | .loadImage _ => .loading
  | .collateFailure _ => .loading
  | .noEmbeddings => .aggregation
  | .vstackEmpty => .aggregation

/-- Python `file.lower()` applied to a file name. -/
def lowerName (f : FileName) : FileName := f.map Char.toLower

/-- Python `file.lower().endswith(tuple(exts))`: the lowercased file name ends
with one of the allow-listed extensions. -/
def hasAllowedExt (exts : List FileName) (f : FileName) : Bool :=
  exts.any fun e => e.isSuffixOf (lowerName f)

/-- The `os.walk` enumeration of both dataset constructors: keep exactly the
files whose lowercased name ends with an allow-listed extension, in traversal
order. -/
def enumerateImages (exts : List FileName) (files : List FileName) : List FileName :=
  files.filter (hasAllowedExt exts)

/-- Extension allow-list of `ImageDataset.__init__` (NEW2 script):
`('.jpg', '.jpeg', '.png', '.tif', '.tiff')`. -/
def allowedExtsNew2 : List FileName :=
  [".jpg".toList, ".jpeg".toList, ".png".toList, ".tif".toList, ".tiff".toList]

/-- Extension allow-list of `PatchDataset.__init__` (older script):
`('.png', '.jpg', '.jpeg')`. -/
def allowedExtsOld : List FileName :=
  [".png".toList, ".jpg".toList, ".jpeg".toList]

/-- `ImageDataset.__init__` (NEW2 script): raise `FileNotFoundError` if the
directory is missing, enumerate images, raise `ValueError` if none were
found. -/
def imageDatasetInit (dirExists : Bool) (files : List FileName) :
    Except Err (List FileName) :=
  if !dirExists then .error .dirNotFound
  else
    let imgs := enumerateImages allowedExtsNew2 files
    if imgs.isEmpty then .error .noValidImages else .ok imgs

/-- `PatchDataset.__init__` (older script): no existence check and no
emptiness check; `os.walk` over a missing directory yields nothing, so the
dataset is silently empty. -/
def patchDatasetInit (dirExists : Bool) (files : List FileName) : List FileName :=
  if dirExists then enumerateImages allowedExtsOld files else []

/-- Fuel-indexed helper for `chunkList`; the fuel is the length of the list
being chunked. -/
def chunkAux {α : Type} (B : Nat) : Nat → List α → List (List α)
  | 0, _ => []
  | _ + 1, [] => []
  | fuel + 1, a :: t => ((a :: t).take B) :: chunkAux B fuel ((a :: t).drop B)

/-- The batching of `DataLoader(dataset, batch_size=B, shuffle=False)` with the
default `drop_last=False`: consecutive chunks of size `B`, the final chunk
possibly smaller.  Meaningful for `B > 0` (PyTorch rejects batch size 0). -/
def chunkList {α : Type} (B : Nat) (l : List α) : List (List α) :=
  chunkAux B l.length l

variable {T R : Type}

/-- `ImageDataset.__getitem__` (NEW2 script): decode the image and return it
with its path; on failure, log the error and re-raise. -/
def getItemNew2 (decode : FileName → Option T) (p : FileName) :
    Except Err (T × FileName) :=
  match decode p with
  | some t => .ok (t, p)
  | none => .error (.loadImage p)

/-- Fetching one batch through the DataLoader (NEW2 script): `__getitem__` is
called for each index of the batch in order; an exception raised in a worker
is re-raised in the main process when the batch is requested. -/
def fetchBatch (decode : FileName → Option T) :
    List FileName → Except Err (List (T × FileName))
  | [] => .ok []
  | p :: ps =>
    match getItemNew2 decode p with
    | .error e => .error e
    | .ok it =>
      match fetchBatch decode ps with
      | .error e => .error e
      | .ok its => .ok (it :: its)

/-- The batch loop of `extract_embeddings` (NEW2 script).  The iteration over
the DataLoader (`for images, filenames in tqdm(dataloader)`) is outside the
`try`, so a fetch exception propagates; the body (`images.to(device)`,
`model(images)`, append, extend) is inside the `try`, so a failing batch is
logged and skipped with `continue`.  Returns the per-batch vector blocks and
the collected file names. -/
def extractLoop (decode : FileName → Option T) (encode : T → List R)
    (inferOk : List T → Bool) :
    List (List FileName) → Except Err (List (List (List R)) × List FileName)
  | [] => .ok ([], [])
  | b :: bs =>
    match fetchBatch decode b with
    | .error e => .error e
    | .ok items =>
      match extractLoop decode encode inferOk bs with
      | .error e => .error e
      | .ok (blocks, names) =>
        if inferOk (items.map Prod.fst) then
          .ok ((items.map Prod.fst).map encode :: blocks, items.map Prod.snd ++ names)
        else
          .ok (blocks, names)

/-- `extract_embeddings` (NEW2 script): run the batch loop; if no batch
contributed a block (`if not all_embeddings`), raise `RuntimeError`; otherwise
concatenate the blocks (`torch.cat(all_embeddings, dim=0)`). -/
def extractEmbeddings (decode : FileName → Option T) (encode : T → List R)
    (inferOk : List T → Bool) (batches : List (List FileName)) :
    Except Err (List (List R) × List FileName) :=
  match extractLoop decode encode inferOk batches with
  | .error e => .error e
  | .ok (blocks, names) =>
    if blocks.isEmpty then .error .noEmbeddings
    else .ok (blocks.flatten, names)

/-- Number of images belonging to batches whose `model(images)` step failed
and was skipped by the `except ... continue` of `extract_embeddings` (NEW2
script), up to the point where the loop aborts. -/
def skippedImages (decode : FileName → Option T) (inferOk : List T → Bool) :
    List (List FileName) → Nat
  | [] => 0
  | b :: bs =>
    match fetchBatch decode b with
    | .error _ => 0
    | .ok items =>
      (if inferOk (items.map Prod.fst) then 0 else b.length) +
        skippedImages decode inferOk bs

/-- Number of `model(images)` invocations performed by the batch loop: one per
batch successfully fetched from the DataLoader, stopping at the first fetch
exception. -/
def inferenceCalls (decode : FileName → Option T) :
    List (List FileName) → Nat
  | [] => 0
  | b :: bs =>
    match fetchBatch decode b with
    | .error _ => 0
    | .ok _ => 1 + inferenceCalls decode bs

/-- A saved delimited-text table: the header line (list of column names, in
column order) and one data row per image, carrying the image's source
identifier and its embedding vector. -/
structure CsvTable (R : Type) where
  header : List String
  rows : List (FileName × List R)
deriving DecidableEq, Repr

/-- `save_embeddings` (NEW2 script): columns `dim_0 .. dim_{D-1}` from
`embeddings.shape[1]`, then `df.insert(0, 'filename', filenames)` puts the
`filename` column first; one row per collected embedding. -/
def saveEmbeddingsNew2 (vecs : List (List R)) (names : List FileName) : CsvTable R :=
  let D := (vecs.headD []).length
  { header := "filename" :: (List.range D).map fun i => "dim_" ++ toString i
    rows := names.zip vecs }

/-- The save step of `main` (older script): `df = pd.DataFrame(features)`
names the columns by their bare integer index, and `df['path'] = paths`
appends `path` as the last column. -/
def saveFeaturesOld (vecs : List (List R)) (names : List FileName) : CsvTable R :=
  let D := (vecs.headD []).length
  { header := ((List.range D).map fun i => toString i) ++ ["path"]
    rows := names.zip vecs }

/-- Dataset construction, batching and extraction of `main` (NEW2 script),
up to but excluding the save step. -/
def runPipelineNew2 (dirExists : Bool) (files : List FileName)
    (decode : FileName → Option T) (encode : T → List R)
    (inferOk : List T → Bool) (B : Nat) :
    Except Err (List (List R) × List FileName) :=
  match imageDatasetInit dirExists files with
  | .error e => .error e
  | .ok imgs => extractEmbeddings decode encode inferOk (chunkList B imgs)

/-- `main` (NEW2 script): build the dataset, extract embeddings, save them.
Any exception propagates (it is re-raised by the outer handler) and no output
file is written in that case. -/
def mainNew2 (dirExists : Bool) (files : List FileName)
    (decode : FileName → Option T) (encode : T → List R)
    (inferOk : List T → Bool) (B : Nat) : Except Err (CsvTable R) :=
  match runPipelineNew2 dirExists files decode encode inferOk B with
  | .error e => .error e
  | .ok (vecs, names) => .ok (saveEmbeddingsNew2 vecs names)

/-- Collating one batch in the older script: `PatchDataset.__getitem__`
returns `(None, p)` when decoding `p` fails, and the DataLoader's default
collate function then raises a `TypeError` on the `None` entry. -/
def collateOld (decode : FileName → Option T) :
    List FileName → Except Err (List T × List FileName)
  | [] => .ok ([], [])
  | p :: ps =>
    match decode p with
    | none => .error (.collateFailure p)
    | some t =>
      match collateOld decode ps with
      | .error e => .error e
      | .ok (ts, qs) => .ok (t :: ts, p :: qs)

/-- The batch loop of `extract_features` (older script): no `try`/`except` at
all, so any exception aborts the loop; each fetched batch is encoded and its
vectors and paths are appended. -/
def extractLoopOld (decode : FileName → Option T) (encode : T → List R) :
    List (List FileName) → Except Err (List (List (List R)) × List FileName)
  | [] => .ok ([], [])
  | b :: bs =>
    match collateOld decode b with
    | .error e => .error e
    | .ok (ts, ps) =>
      match extractLoopOld decode encode bs with
      | .error e => .error e
      | .ok (blocks, names) => .ok (ts.map encode :: blocks, ps ++ names)

/-- `extract_features` (older script): run the loop, then `np.vstack` the
blocks; `np.vstack([])` raises a `ValueError` when no batch was processed. -/
def extractFeaturesOld (decode : FileName → Option T) (encode : T → List R)
    (batches : List (List FileName)) :
    Except Err (List (List R) × List FileName) :=
  match extractLoopOld decode encode batches with
  | .error e => .error e
  | .ok (blocks, names) =>
    if blocks.isEmpty then .error .vstackEmpty
    else .ok (blocks.flatten, names)

/-- `main` (older script): construct the dataset (no existence check), batch,
extract, and save with `path` as the last column. -/
def mainOld (dirExists : Bool) (files : List FileName)
    (decode : FileName → Option T) (encode : T → List R) (B : Nat) :
    Except Err (CsvTable R) :=
  match extractFeaturesOld decode encode
      (chunkList B (patchDatasetInit dirExists files)) with
  | .error e => .error e
  | .ok (vecs, names) => .ok (saveFeaturesOld vecs names)

/-- `SUPPORTED_EXTENSIONS` of `run_trident_segmentation.py`. -/
def supportedWsiExts : List FileName :=
  [".svs".toList, ".ndpi".toList, ".tiff".toList, ".tif".toList,
    ".vsi".toList, ".mrxs".toList, ".scn".toList]

/-- `pathlib.PurePath.suffix` on a file name: the substring from the last dot,
provided that dot is neither the first nor the last character; empty
otherwise. -/
def pathSuffix (f : FileName) : FileName :=
  let n := f.length
  let irev := f.reverse.findIdx fun c => c == '.'
  if irev < n then
    let i := n - 1 - irev
    if 0 < i ∧ i < n - 1 then f.drop i else []
  else []

/-- The file filter of `main` (`run_trident_segmentation.py`):
`f.suffix.lower() in SUPPORTED_EXTENSIONS`. -/
def tridentFilter (files : List FileName) : List FileName :=
  files.filter fun f => supportedWsiExts.contains (lowerName (pathSuffix f))

/-- Observable outcome of one invocation of the segmentation wrapper script:
the process exit code, whether the TRIDENT subprocess was launched, and
whether a failure was logged. -/
structure SegRun where
  exitCode : Nat
  subprocessInvoked : Bool
  loggedFailure : Bool
deriving DecidableEq, Repr

/-- `main` of `run_trident_segmentation.py` in `--image_dir` mode, with the
subprocess's return code `rc` supplied by the environment.  Every branch of
the Python `main` ends in a plain `return` (never `sys.exit`), so the
interpreter exits with code 0 on all modelled paths; a nonzero subprocess
return code is only logged. -/
def tridentMain (scriptIsFile dirIsDir : Bool) (files : List FileName)
    (rc : Int) : SegRun :=
  if !scriptIsFile then ⟨0, false, true⟩
  else if !dirIsDir then ⟨0, false, true⟩
  else if (tridentFilter files).isEmpty then ⟨0, false, true⟩
  else if rc == 0 then ⟨0, true, false⟩
  else ⟨0, true, true⟩

/-- Constructor arguments of `umap.UMAP` as passed by `perform_umap`. -/
structure UMAPArgs where
  n_neighbors : Nat
  min_dist : Rat
  n_components : Nat
  random_state : Option Nat
deriving DecidableEq, Repr

/-- Constructor arguments of `sklearn.cluster.KMeans` as passed by
`perform_clustering`. -/
structure KMeansArgs where
  n_clusters : Nat
  random_state : Option Nat
deriving DecidableEq, Repr

/-- `N_NEIGHBORS` from `config.py`. -/
def N_NEIGHBORS : Nat := 15

/-- `MIN_DIST` from `config.py` (0.1). -/
def MIN_DIST : Rat := 1 / 10

/-- `N_COMPONENTS` from `config.py`. -/
def N_COMPONENTS : Nat := 3

/-- `perform_umap` (`04_05_umap_3d_kmeans30.py`): construct the reducer with
the config hyperparameters and `random_state=42` and call `fit_transform`.
The external library is the parameter `fitTransform`, which also receives the
ambient randomness `entropy` of the run (used by the library only when no
`random_state` is given). -/
def perform_umap {M : Type} (fitTransform : UMAPArgs → M → Nat → M)
    (entropy : Nat) (features : M) : M :=
  fitTransform ⟨N_NEIGHBORS, MIN_DIST, N_COMPONENTS, some 42⟩ features entropy

/-- `perform_clustering` (`04_05_umap_3d_kmeans30.py`): construct `KMeans`
with `random_state=42` and call `fit_predict`. -/
def perform_clustering {M L : Type} (fitPredict : KMeansArgs → M → Nat → L)
    (entropy : Nat) (embedding : M) (nClusters : Nat) : L :=
  fitPredict ⟨nClusters, some 42⟩ embedding entropy

/-- One run of the dimensionality-reduction-and-clustering script on a
features table: UMAP projection followed by K-means with the script's default
of 30 clusters. -/
def umapKmeansRun {M L : Type} (fitTransform : UMAPArgs → M → Nat → M)
    (fitPredict : KMeansArgs → M → Nat → L) (features : M) (entropy : Nat) :
    M × L :=
  let embedding := perform_umap fitTransform entropy features
  (embedding, perform_clustering fitPredict entropy embedding 30)

/-! Concrete instantiations used to exercise the definitions on explicit
inputs (decoded tensors are natural numbers, embedding vectors are lists of
natural numbers). -/

/-- A decodable image file. -/
def goodJpg : FileName := "good.jpg".toList

/-- An undecodable (corrupted) image file. -/
def badJpg : FileName := "bad.jpg".toList

/-- A decodable image file. -/
def aJpg : FileName := "a.jpg".toList

/-- A decodable image file. -/
def bJpg : FileName := "b.jpg".toList

/-- A concrete decoder that fails exactly on `badJpg`. -/
def cDecode : FileName → Option Nat := fun p => if p = badJpg then none else some 1

/-- A concrete decoder that succeeds on every file, decoding `bJpg` to the
tensor `2` and everything else to `1`. -/
def cDecodeTotal : FileName → Option Nat := fun p => if p = bJpg then some 2 else some 1

/-- A concrete encoder producing one-dimensional embeddings. -/
def cEncode : Nat → List Nat := fun t => [t]

/-- A concrete inference step that never fails. -/
def cInferOkAll : List Nat → Bool := fun _ => true

/-- A concrete inference step that fails exactly on batches containing the
tensor `2` (the decoding of `bJpg` under `cDecodeTotal`). -/
def cInferOkNo2 : List Nat → Bool := fun l => !(l.contains 2)

/-- A concrete whole-slide image file with a supported extension. -/
def slideSvs : FileName := "slide.svs".toList

/-- A concrete stand-in for the external UMAP `fit_transform`, ignoring the
ambient entropy. -/
def cFitTransform : UMAPArgs → Nat → Nat → Nat := fun a x _ => x + a.n_components

/-- A concrete stand-in for the external K-means `fit_predict`, ignoring the
ambient entropy. -/
def cFitPredict : KMeansArgs → Nat → Nat → Nat := fun a x _ => x * a.n_clusters

/-! Helper lemmas about the embedded definitions. -/

/-- Boolean suffix test agrees with the suffix relation. -/
theorem isSuffixOf_true_iff (l₁ l₂ : List Char) :
    l₁.isSuffixOf l₂ = true ↔ List.IsSuffix l₁ l₂ := by
  show l₁.reverse.isPrefixOf l₂.reverse = true ↔ _
  rw [List.isPrefixOf_iff_prefix]
  exact List.reverse_prefix

/-- Membership in the enumeration is equivalent to membership in the directory
together with an allow-listed suffix of the lowercased name. -/
theorem mem_enumerateImages (exts files : List FileName) (f : FileName) :
    f ∈ enumerateImages exts files ↔
      f ∈ files ∧ ∃ e ∈ exts, List.IsSuffix e (lowerName f) := by
  simp only [enumerateImages, hasAllowedExt, List.mem_filter, List.any_eq_true,
    isSuffixOf_true_iff]

/-- Chunking the empty list gives no batches. -/
theorem chunkAux_nil {α : Type} (B fuel : Nat) :
    chunkAux B fuel ([] : List α) = [] := by
  cases fuel <;> rfl

/-- The fuel of `chunkAux` is irrelevant once it dominates the list length
(for a positive batch size). -/
theorem chunkAux_congr {α : Type} (B : Nat) (hB : 0 < B) :
    ∀ (f₁ f₂ : Nat) (l : List α), l.length ≤ f₁ → l.length ≤ f₂ →
      chunkAux B f₁ l = chunkAux B f₂ l := by
  intro f₁
  induction f₁ with
  | zero =>
    intro f₂ l h₁ _
    have hl : l = [] := List.length_eq_zero.mp (Nat.le_zero.mp h₁)
    subst hl
    rw [chunkAux_nil, chunkAux_nil]
  | succ n ih =>
    intro f₂ l h₁ h₂
    match l, f₂ with
    | [], _ => rw [chunkAux_nil, chunkAux_nil]
    | a :: t, 0 => simp at h₂
    | a :: t, f + 1 =>
      have hd : ((a :: t).drop B).length ≤ n := by
        simp only [List.length_drop, List.length_cons] at h₁ ⊢
        omega
      have hd2 : ((a :: t).drop B).length ≤ f := by
        simp only [List.length_drop, List.length_cons] at h₂ ⊢
        omega
      show ((a :: t).take B) :: chunkAux B n ((a :: t).drop B) =
        ((a :: t).take B) :: chunkAux B f ((a :: t).drop B)
      rw [ih f _ hd hd2]

/-- Unfolding equation for `chunkList` on a nonempty list. -/
theorem chunkList_cons {α : Type} (B : Nat) (hB : 0 < B) (a : α) (t : List α) :
    chunkList B (a :: t) = (a :: t).take B :: chunkList B ((a :: t).drop B) := by
  show chunkAux B (t.length + 1) (a :: t) = _
  show ((a :: t).take B) :: chunkAux B t.length ((a :: t).drop B) = _
  unfold chunkList
  rw [chunkAux_congr B hB t.length ((a :: t).drop B).length ((a :: t).drop B)
    (by simp only [List.length_drop, List.length_cons]; omega) (le_refl _)]

/-- The DataLoader batching is a partition into consecutive chunks: their
concatenation is the original list, each chunk is nonempty of size at most
`B`, all but the last have size exactly `B`, and there are
`⌈length / B⌉ = (length + B - 1) / B` of them. -/
theorem chunkList_spec {α : Type} (B : Nat) (hB : 0 < B) (l : List α) :
    (chunkList B l).flatten = l ∧
    (∀ c ∈ chunkList B l, c ≠ [] ∧ c.length ≤ B) ∧
    (∀ c ∈ (chunkList B l).dropLast, c.length = B) ∧
    (chunkList B l).length = (l.length + B - 1) / B := by
  generalize hn : l.length = n
  induction n using Nat.strong_induction_on generalizing l with
  | _ n ih =>
    match l with
    | [] =>
      subst hn
      refine ⟨rfl, by simp [chunkList, chunkAux], by simp [chunkList, chunkAux], ?_⟩
      show 0 = (0 + B - 1) / B
      rw [Nat.div_eq_of_lt (by omega)]
    | a :: t =>
      subst hn
      have hdroplt : ((a :: t).drop B).length < (a :: t).length := by
        simp only [List.length_drop, List.length_cons]
        omega
      obtain ⟨ihf, ihm, ihd, ihl⟩ :=
        ih ((a :: t).drop B).length hdroplt ((a :: t).drop B) rfl
      rw [chunkList_cons B hB]
      have htake_ne : (a :: t).take B ≠ [] := by
        intro hcon
        have := congrArg List.length hcon
        simp only [List.length_take, List.length_nil, List.length_cons] at this
        omega
      refine ⟨?_, ?_, ?_, ?_⟩
      · simp only [List.flatten_cons, ihf, List.take_append_drop]
      · intro c hc
        rcases List.mem_cons.mp hc with hc | hc
        · subst hc
          exact ⟨htake_ne, by simp only [List.length_take]; omega⟩
        · exact ihm c hc
      · intro c hc
        match hch : chunkList B ((a :: t).drop B) with
        | [] => rw [hch] at hc; simp at hc
        | r :: rs =>
          rw [hch] at hc
          have hdne : (a :: t).drop B ≠ [] := by
            intro hcon
            rw [hcon, chunkList] at hch
            simp [chunkAux_nil] at hch
          have hBlt : B < (a :: t).length := by
            by_contra hge
            exact hdne (List.drop_eq_nil_of_le (by omega))
          rw [List.dropLast_cons₂] at hc
          rcases List.mem_cons.mp hc with hc | hc
          · subst hc
            simp only [List.length_take]
            omega
          · exact ihd c (by rw [hch]; exact hc)
      · simp only [List.length_cons, ihl, List.length_drop, List.length_cons]
        by_cases hc : t.length + 1 ≤ B
        · have h1 : t.length + 1 - B = 0 := by omega
          rw [h1]
          have h2 : t.length + 1 + B - 1 = (t.length + 1 - 1) + B := by omega
          rw [Nat.div_eq_of_lt (by omega), h2, Nat.add_div_right _ hB,
            Nat.div_eq_of_lt (by omega)]
        · have h1 : t.length + 1 - B + B - 1 = (t.length - B) + B := by omega
          have h2 : t.length + 1 + B - 1 = ((t.length - B) + B) + B := by omega
          rw [h1, h2, Nat.add_div_right _ hB, Nat.add_div_right _ hB,
            Nat.add_div_right _ hB]

/-- A successfully fetched batch carries exactly the batch's paths, in order,
each paired with its decoding. -/
theorem fetchBatch_ok {T : Type} (decode : FileName → Option T) :
    ∀ (b : List FileName) (items : List (T × FileName)),
      fetchBatch decode b = .ok items →
      items.map Prod.snd = b ∧ ∀ it ∈ items, decode it.2 = some it.1 := by
  intro b
  induction b with
  | nil =>
    intro items h
    simp only [fetchBatch, Except.ok.injEq] at h
    subst h
    exact ⟨rfl, by intro it hit; simp at hit⟩
  | cons p ps ih =>
    intro items h
    simp only [fetchBatch, getItemNew2] at h
    cases hdp : decode p with
    | none => rw [hdp] at h; simp at h
    | some t =>
      rw [hdp] at h
      cases hfb : fetchBatch decode ps with
      | error e => rw [hfb] at h; simp at h
      | ok its =>
        rw [hfb] at h
        simp only [Except.ok.injEq] at h
        subst h
        obtain ⟨hmap, hdec⟩ := ih its hfb
        refine ⟨by simp [hmap], ?_⟩
        intro it hit
        rcases List.mem_cons.mp hit with hit | hit
        · subst hit; exact hdp
        · exact hdec it hit

/-- A batch fetch fails exactly with the load error of some undecodable
image of the batch. -/
theorem fetchBatch_error {T : Type} (decode : FileName → Option T) :
    ∀ (b : List FileName) (e : Err), fetchBatch decode b = .error e →
      ∃ q, q ∈ b ∧ decode q = none ∧ e = .loadImage q := by
  intro b
  induction b with
  | nil => intro e h; simp [fetchBatch] at h
  | cons p ps ih =>
    intro e h
    simp only [fetchBatch, getItemNew2] at h
    cases hdp : decode p with
    | none =>
      rw [hdp] at h
      simp only [Except.error.injEq] at h
      exact ⟨p, List.mem_cons_self p ps, hdp, h.symm⟩
    | some t =>
      rw [hdp] at h
      cases hfb : fetchBatch decode ps with
      | error e2 =>
        rw [hfb] at h
        simp only [Except.error.injEq] at h
        subst h
        obtain ⟨q, hq, hqn, he⟩ := ih e2 hfb
        exact ⟨q, List.mem_cons_of_mem p hq, hqn, he⟩
      | ok its => rw [hfb] at h; simp at h

/-- If some image of the batch is undecodable, the batch fetch raises a load
error for one of them. -/
theorem fetchBatch_error_of_none {T : Type} (decode : FileName → Option T) :
    ∀ (b : List FileName), (∃ p ∈ b, decode p = none) →
      ∃ q, q ∈ b ∧ decode q = none ∧
        fetchBatch decode b = .error (.loadImage q) := by
  intro b
  induction b with
  | nil => intro h; simp at h
  | cons p ps ih =>
    intro h
    cases hdp : decode p with
    | none =>
      refine ⟨p, List.mem_cons_self p ps, hdp, ?_⟩
      simp only [fetchBatch, getItemNew2, hdp]
    | some t =>
      obtain ⟨p0, hp0, hp0n⟩ := h
      rcases List.mem_cons.mp hp0 with hp0 | hp0
      · subst hp0; rw [hdp] at hp0n; cases hp0n
      · obtain ⟨q, hq, hqn, hfb⟩ := ih ⟨p0, hp0, hp0n⟩
        refine ⟨q, List.mem_cons_of_mem p hq, hqn, ?_⟩
        simp only [fetchBatch, getItemNew2, hdp, hfb]

/-- If every image of the batch decodes, the batch fetch succeeds. -/
theorem fetchBatch_isSome {T : Type} (decode : FileName → Option T) :
    ∀ (b : List FileName), (∀ p ∈ b, (decode p).isSome) →
      ∃ items, fetchBatch decode b = .ok items := by
  intro b
  induction b with
  | nil => intro _; exact ⟨[], rfl⟩
  | cons p ps ih =>
    intro h
    cases hdp : decode p with
    | none =>
      have := h p (List.mem_cons_self p ps)
      rw [hdp] at this
      cases this
    | some t =>
      obtain ⟨its, hfb⟩ := ih fun q hq => h q (List.mem_cons_of_mem p hq)
      exact ⟨(t, p) :: its, by simp only [fetchBatch, getItemNew2, hdp, hfb]⟩

/-- Every element on the left of a `Forall₂` has a related element on the
right. -/
theorem forall2_exists_mem {A C : Type} (Rr : A → C → Prop) :
    ∀ (l₁ : List A) (l₂ : List C), List.Forall₂ Rr l₁ l₂ →
      ∀ a ∈ l₁, ∃ c ∈ l₂, Rr a c := by
  intro l₁ l₂ h
  induction h with
  | nil => intro a ha; simp at ha
  | cons hR _ ih =>
    intro a ha
    rcases List.mem_cons.mp ha with ha | ha
    · subst ha
      exact ⟨_, List.mem_cons_self _ _, hR⟩
    · obtain ⟨c, hc, hrc⟩ := ih a ha
      exact ⟨c, List.mem_cons_of_mem _ hc, hrc⟩

/-- The encoded vectors of a fetched batch are pointwise related to the
batch's paths: each vector is the encoding of the decoding of its path. -/
theorem forall2_encode_items {T R : Type} (decode : FileName → Option T)
    (encode : T → List R) :
    ∀ (items : List (T × FileName)), (∀ it ∈ items, decode it.2 = some it.1) →
      List.Forall₂ (fun v p => ∃ t, decode p = some t ∧ v = encode t)
        ((items.map Prod.fst).map encode) (items.map Prod.snd) := by
  intro items
  induction items with
  | nil => intro _; exact List.Forall₂.nil
  | cons it its ih =>
    intro h
    simp only [List.map_cons]
    exact List.Forall₂.cons ⟨it.1, h it (List.mem_cons_self it its), rfl⟩
      (ih fun x hx => h x (List.mem_cons_of_mem it hx))

/-- Structure of a completed batch loop (NEW2 script): the collected names are
an order-preserving sublist of the enumerated images; each collected vector is
the encoding of its name's decoding, in aligned order; the number of collected
names plus the number of images skipped by failing inference equals the number
of enumerated images; and every collected block spans exactly one batch. -/
theorem extractLoop_ok_spec {T R : Type} (decode : FileName → Option T)
    (encode : T → List R) (inferOk : List T → Bool) :
    ∀ (batches : List (List FileName)) (blocks : List (List (List R)))
      (names : List FileName),
      extractLoop decode encode inferOk batches = .ok (blocks, names) →
      List.Sublist names batches.flatten ∧
      List.Forall₂ (fun v p => ∃ t, decode p = some t ∧ v = encode t)
        blocks.flatten names ∧
      names.length + skippedImages decode inferOk batches =
        batches.flatten.length ∧
      ∀ blk ∈ blocks, ∃ b, b ∈ batches ∧ blk.length = b.length := by
  intro batches
  induction batches with
  | nil =>
    intro blocks names h
    simp only [extractLoop, Except.ok.injEq, Prod.mk.injEq] at h
    obtain ⟨h1, h2⟩ := h
    subst h1
    subst h2
    exact ⟨List.Sublist.refl [], List.Forall₂.nil, rfl, by intro blk hblk; simp at hblk⟩
  | cons b bs ih =>
    intro blocks names h
    simp only [extractLoop] at h
    cases hfb : fetchBatch decode b with
    | error e => rw [hfb] at h; simp at h
    | ok items =>
      rw [hfb] at h
      cases hrec : extractLoop decode encode inferOk bs with
      | error e => rw [hrec] at h; simp at h
      | ok pr =>
        obtain ⟨blocks', names'⟩ := pr
        rw [hrec] at h
        dsimp only at h
        obtain ⟨hsub, hf2, hcount, hblk⟩ := ih blocks' names' hrec
        obtain ⟨hsnd, hdec⟩ := fetchBatch_ok decode b items hfb
        have hitemslen : items.length = b.length := by
          rw [← hsnd, List.length_map]
        by_cases hio : inferOk (items.map Prod.fst)
        · rw [if_pos hio] at h
          simp only [Except.ok.injEq, Prod.mk.injEq] at h
          obtain ⟨h1, h2⟩ := h
          subst h1
          subst h2
          refine ⟨?_, ?_, ?_, ?_⟩
          · rw [hsnd, List.flatten_cons]
            exact List.Sublist.append (List.Sublist.refl b) hsub
          · rw [List.flatten_cons]
            have := forall2_encode_items decode encode items hdec
            exact List.rel_append this hf2
          · simp only [List.length_append, List.length_map, hitemslen,
              List.flatten_cons, skippedImages, hfb, hio, if_pos]
            omega
          · intro blk hblkmem
            rcases List.mem_cons.mp hblkmem with hm | hm
            · subst hm
              refine ⟨b, List.mem_cons_self b bs, ?_⟩
              simp [hitemslen]
            · obtain ⟨b0, hb0, hlen0⟩ := hblk blk hm
              exact ⟨b0, List.mem_cons_of_mem b hb0, hlen0⟩
        · rw [if_neg hio] at h
          simp only [Except.ok.injEq, Prod.mk.injEq] at h
          obtain ⟨h1, h2⟩ := h
          subst h1
          subst h2
          refine ⟨?_, hf2, ?_, ?_⟩
          · rw [List.flatten_cons]
            exact hsub.trans (List.sublist_append_right b bs.flatten)
          · simp only [List.flatten_cons, List.length_append, skippedImages,
              hfb, hio, if_neg]
            simp only [Bool.false_eq_true, if_false]
            omega
          · intro blk hm
            obtain ⟨b0, hb0, hlen0⟩ := hblk blk hm
            exact ⟨b0, List.mem_cons_of_mem b hb0, hlen0⟩

/-- If some enumerated image is undecodable, the batch loop aborts with a load
error for some undecodable image (NEW2 script: the DataLoader exception is
raised outside the `try` of `extract_embeddings`). -/
theorem extractLoop_error_of_none {T R : Type} (decode : FileName → Option T)
    (encode : T → List R) (inferOk : List T → Bool) :
    ∀ (batches : List (List FileName)),
      (∃ p ∈ batches.flatten, decode p = none) →
      ∃ q, decode q = none ∧
        extractLoop decode encode inferOk batches = .error (.loadImage q) := by
  intro batches
  induction batches with
  | nil => intro h; simp at h
  | cons b bs ih =>
    intro h
    obtain ⟨p, hp, hpn⟩ := h
    rw [List.flatten_cons] at hp
    rcases List.mem_append.mp hp with hp | hp
    · obtain ⟨q, hq, hqn, hfb⟩ := fetchBatch_error_of_none decode b ⟨p, hp, hpn⟩
      exact ⟨q, hqn, by simp only [extractLoop, hfb]⟩
    · cases hfb : fetchBatch decode b with
      | error e =>
        obtain ⟨q, hq, hqn, he⟩ := fetchBatch_error decode b e hfb
        subst he
        exact ⟨q, hqn, by simp only [extractLoop, hfb]⟩
      | ok items =>
        obtain ⟨q, hqn, hrec⟩ := ih ⟨p, hp, hpn⟩
        exact ⟨q, hqn, by simp only [extractLoop, hfb, hrec]⟩

/-- If every enumerated image decodes, the batch loop completes. -/
theorem extractLoop_ok_of_isSome {T R : Type} (decode : FileName → Option T)
    (encode : T → List R) (inferOk : List T → Bool) :
    ∀ (batches : List (List FileName)),
      (∀ p ∈ batches.flatten, (decode p).isSome) →
      ∃ blocks names,
        extractLoop decode encode inferOk batches = .ok (blocks, names) := by
  intro batches
  induction batches with
  | nil => intro _; exact ⟨[], [], rfl⟩
  | cons b bs ih =>
    intro h
    have hb : ∀ p ∈ b, (decode p).isSome := by
      intro p hp
      exact h p (by rw [List.flatten_cons]; exact List.mem_append_left _ hp)
    have hbs : ∀ p ∈ bs.flatten, (decode p).isSome := by
      intro p hp
      exact h p (by rw [List.flatten_cons]; exact List.mem_append_right _ hp)
    obtain ⟨items, hfb⟩ := fetchBatch_isSome decode b hb
    obtain ⟨blocks, names, hrec⟩ := ih hbs
    by_cases hio : inferOk (items.map Prod.fst)
    · exact ⟨(items.map Prod.fst).map encode :: blocks, items.map Prod.snd ++ names,
        by simp only [extractLoop, hfb, hrec, if_pos hio]⟩
    · exact ⟨blocks, names, by simp only [extractLoop, hfb, hrec, if_neg hio]⟩

/-- If every enumerated image decodes, the encoder is invoked once per batch. -/
theorem inferenceCalls_eq_length {T : Type} (decode : FileName → Option T) :
    ∀ (batches : List (List FileName)),
      (∀ p ∈ batches.flatten, (decode p).isSome) →
      inferenceCalls decode batches = batches.length := by
  intro batches
  induction batches with
  | nil => intro _; rfl
  | cons b bs ih =>
    intro h
    have hb : ∀ p ∈ b, (decode p).isSome := by
      intro p hp
      exact h p (by rw [List.flatten_cons]; exact List.mem_append_left _ hp)
    have hbs : ∀ p ∈ bs.flatten, (decode p).isSome := by
      intro p hp
      exact h p (by rw [List.flatten_cons]; exact List.mem_append_right _ hp)
    obtain ⟨items, hfb⟩ := fetchBatch_isSome decode b hb
    simp only [inferenceCalls, hfb, ih hbs, List.length_cons]
    omega

/-- A successfully collated batch (older script) carries exactly the batch's
paths, in order, each tensor being the decoding of its path. -/
theorem collateOld_ok {T : Type} (decode : FileName → Option T) :
    ∀ (b : List FileName) (ts : List T) (ps : List FileName),
      collateOld decode b = .ok (ts, ps) →
      ps = b ∧ List.Forall₂ (fun t p => decode p = some t) ts b := by
  intro b
  induction b with
  | nil =>
    intro ts ps h
    simp only [collateOld, Except.ok.injEq, Prod.mk.injEq] at h
    obtain ⟨h1, h2⟩ := h
    subst h1
    subst h2
    exact ⟨rfl, List.Forall₂.nil⟩
  | cons p pl ih =>
    intro ts ps h
    simp only [collateOld] at h
    cases hdp : decode p with
    | none => rw [hdp] at h; simp at h
    | some t =>
      rw [hdp] at h
      cases hco : collateOld decode pl with
      | error e => rw [hco] at h; simp at h
      | ok pr =>
        obtain ⟨ts', qs'⟩ := pr
        rw [hco] at h
        dsimp only at h
        simp only [Except.ok.injEq, Prod.mk.injEq] at h
        obtain ⟨h1, h2⟩ := h
        subst h1
        subst h2
        obtain ⟨hq, hf2⟩ := ih ts' qs' hco
        exact ⟨by rw [hq], List.Forall₂.cons hdp hf2⟩

/-- Structure of a completed batch loop in the older script: the collected
names are exactly the concatenation of the batches, each collected vector is
the encoding of its name's decoding, and every block spans one batch. -/
theorem extractLoopOld_ok_spec {T R : Type} (decode : FileName → Option T)
    (encode : T → List R) :
    ∀ (batches : List (List FileName)) (blocks : List (List (List R)))
      (names : List FileName),
      extractLoopOld decode encode batches = .ok (blocks, names) →
      names = batches.flatten ∧
      List.Forall₂ (fun v p => ∃ t, decode p = some t ∧ v = encode t)
        blocks.flatten names ∧
      ∀ blk ∈ blocks, ∃ b, b ∈ batches ∧ blk.length = b.length := by
  intro batches
  induction batches with
  | nil =>
    intro blocks names h
    simp only [extractLoopOld, Except.ok.injEq, Prod.mk.injEq] at h
    obtain ⟨h1, h2⟩ := h
    subst h1
    subst h2
    exact ⟨rfl, List.Forall₂.nil, by intro blk hblk; simp at hblk⟩
  | cons b bs ih =>
    intro blocks names h
    simp only [extractLoopOld] at h
    cases hco : collateOld decode b with
    | error e => rw [hco] at h; simp at h
    | ok pr =>
      obtain ⟨ts, ps⟩ := pr
      rw [hco] at h
      dsimp only at h
      cases hrec : extractLoopOld decode encode bs with
      | error e => rw [hrec] at h; simp at h
      | ok pr2 =>
        obtain ⟨blocks', names'⟩ := pr2
        rw [hrec] at h
        dsimp only at h
        simp only [Except.ok.injEq, Prod.mk.injEq] at h
        obtain ⟨h1, h2⟩ := h
        subst h1
        subst h2
        obtain ⟨hps, hf2b⟩ := collateOld_ok decode b ts ps hco
        obtain ⟨hnames, hf2, hblk⟩ := ih blocks' names' hrec
        subst hps
        subst hnames
        have htslen : ts.length = ps.length := List.Forall₂.length_eq hf2b
        refine ⟨by rw [List.flatten_cons], ?_, ?_⟩
        · rw [List.flatten_cons]
          have hb2 : List.Forall₂
              (fun v p => ∃ t, decode p = some t ∧ v = encode t) (ts.map encode) ps := by
            clear htslen hco
            induction hf2b with
            | nil => exact List.Forall₂.nil
            | cons hR _ ih2 =>
              exact List.Forall₂.cons ⟨_, hR, rfl⟩ ih2
          exact List.rel_append hb2 hf2
        · intro blk hm
          rcases List.mem_cons.mp hm with hm | hm
          · subst hm
            exact ⟨ps, List.mem_cons_self ps bs, by simp [htslen]⟩
          · obtain ⟨b0, hb0, hlen0⟩ := hblk blk hm
            exact ⟨b0, List.mem_cons_of_mem ps hb0, hlen0⟩

/-- Destructuring a successful NEW2 pipeline run: the enumeration is nonempty,
the loop completed with a nonempty list of blocks, and the returned vectors
are their concatenation. -/
theorem runPipelineNew2_ok {T R : Type} (files : List FileName)
    (decode : FileName → Option T) (encode : T → List R)
    (inferOk : List T → Bool) (B : Nat) (vecs : List (List R))
    (names : List FileName)
    (h : runPipelineNew2 true files decode encode inferOk B = .ok (vecs, names)) :
    ∃ blocks,
      extractLoop decode encode inferOk
        (chunkList B (enumerateImages allowedExtsNew2 files)) =
        .ok (blocks, names) ∧
      blocks ≠ [] ∧ vecs = blocks.flatten := by
  unfold runPipelineNew2 imageDatasetInit at h
  simp only [Bool.not_true] at h
  rw [if_neg (by simp)] at h
  cases hE : (enumerateImages allowedExtsNew2 files).isEmpty with
  | true => rw [hE] at h; simp at h
  | false =>
    rw [hE] at h
    simp only [Bool.false_eq_true, if_false] at h
    unfold extractEmbeddings at h
    cases hL : extractLoop decode encode inferOk
        (chunkList B (enumerateImages allowedExtsNew2 files)) with
    | error e => rw [hL] at h; simp at h
    | ok pr =>
      obtain ⟨blocks, names'⟩ := pr
      rw [hL] at h
      dsimp only at h
      cases hbe : blocks.isEmpty with
      | true => rw [hbe] at h; simp at h
      | false =>
        rw [hbe] at h
        simp only [Bool.false_eq_true, if_false, Except.ok.injEq, Prod.mk.injEq] at h
        obtain ⟨h1, h2⟩ := h
        subst h2
        exact ⟨blocks, rfl, by simpa using hbe, h1.symm⟩

/-- A nonempty list of blocks, each spanning a nonempty batch, has a nonempty
concatenation. -/
theorem flatten_ne_nil_of_blocks {R : Type} (blocks : List (List (List R)))
    (batches : List (List FileName))
    (hne : blocks ≠ [])
    (hblk : ∀ blk ∈ blocks, ∃ b, b ∈ batches ∧ blk.length = b.length)
    (hbatch : ∀ b ∈ batches, b ≠ []) :
    blocks.flatten ≠ [] := by
  match blocks with
  | [] => exact absurd rfl hne
  | blk :: rest =>
    obtain ⟨b, hb, hlen⟩ := hblk blk (List.mem_cons_self blk rest)
    have hbne : b ≠ [] := hbatch b hb
    have hblkne : blk ≠ [] := by
      intro hcon
      subst hcon
      exact hbne (List.length_eq_zero.mp hlen.symm)
    rw [List.flatten_cons]
    intro hcon
    rcases List.append_eq_nil.mp hcon with ⟨hc, _⟩
    exact hblkne hc

/-- If some enumerated image is undecodable, the whole NEW2 run aborts with a
load error and produces no output table. -/
theorem mainNew2_error_of_undecodable {T R : Type} (files : List FileName)
    (decode : FileName → Option T) (encode : T → List R)
    (inferOk : List T → Bool) (B : Nat) (hB : 0 < B) (p : FileName)
    (hp : p ∈ enumerateImages allowedExtsNew2 files) (hd : decode p = none) :
    ∃ q, decode q = none ∧
      mainNew2 true files decode encode inferOk B = .error (.loadImage q) := by
  have hne : (enumerateImages allowedExtsNew2 files).isEmpty = false := by
    cases hE : enumerateImages allowedExtsNew2 files with
    | nil => rw [hE] at hp; simp at hp
    | cons a t => rfl
  have hflat : (chunkList B (enumerateImages allowedExtsNew2 files)).flatten =
      enumerateImages allowedExtsNew2 files := (chunkList_spec B hB _).1
  obtain ⟨q, hqn, hloop⟩ := extractLoop_error_of_none decode encode inferOk
    (chunkList B (enumerateImages allowedExtsNew2 files))
    ⟨p, by rw [hflat]; exact hp, hd⟩
  refine ⟨q, hqn, ?_⟩
  unfold mainNew2 runPipelineNew2 imageDatasetInit extractEmbeddings
  simp only [Bool.not_true, Bool.false_eq_true, if_false, hne, hloop]

/-- Destructuring a successful aggregation in the older script. -/
theorem extractFeaturesOld_ok {T R : Type} (decode : FileName → Option T)
    (encode : T → List R) (batches : List (List FileName))
    (vecs : List (List R)) (names : List FileName)
    (h : extractFeaturesOld decode encode batches = .ok (vecs, names)) :
    ∃ blocks, extractLoopOld decode encode batches = .ok (blocks, names) ∧
      blocks ≠ [] ∧ vecs = blocks.flatten := by
  unfold extractFeaturesOld at h
  cases hL : extractLoopOld decode encode batches with
  | error e => rw [hL] at h; simp at h
  | ok pr =>
    obtain ⟨blocks, names'⟩ := pr
    rw [hL] at h
    dsimp only at h
    cases hbe : blocks.isEmpty with
    | true => rw [hbe] at h; simp at h
    | false =>
      rw [hbe] at h
      simp only [Bool.false_eq_true, if_false, Except.ok.injEq, Prod.mk.injEq] at h
      obtain ⟨h1, h2⟩ := h
      subst h2
      exact ⟨blocks, rfl, by simpa using hbe, h1.symm⟩

/-! Claim theorems. -/

/-- C9: for every file under the root directory, membership in the enumerated
image list is decided case-insensitively on the file extension: a file whose
name ends in an allow-listed extension in any letter case is enumerated, and a
file whose lowercased name does not end in an allow-listed extension is never
enumerated. -/
theorem c9_extension_filter_case_insensitive (exts files : List FileName)
    (f : FileName) :
    (f ∈ enumerateImages exts files ↔
      f ∈ files ∧ ∃ e ∈ exts, List.IsSuffix e (lowerName f)) ∧
    (∀ u v e, e ∈ exts → f = u ++ v → v.map Char.toLower = e → f ∈ files →
      f ∈ enumerateImages exts files) := by
  refine ⟨mem_enumerateImages exts files f, ?_⟩
  intro u v e he hf hv hmem
  rw [mem_enumerateImages]
  refine ⟨hmem, e, he, ?_⟩
  subst hf
  rw [← hv]
  unfold lowerName
  rw [List.map_append]
  exact List.suffix_append (u.map Char.toLower) (v.map Char.toLower)

/-- Witness for C9: the upper-case-extension file `a.JPG` is enumerated under
the NEW2 allow-list. -/
theorem c9_witness :
    "a.JPG".toList ∈ enumerateImages allowedExtsNew2 ["a.JPG".toList, "b.txt".toList] :=
  (c9_extension_filter_case_insensitive allowedExtsNew2
      ["a.JPG".toList, "b.txt".toList] "a.JPG".toList).2
    "a".toList ".JPG".toList ".jpg".toList (by decide) (by decide) (by decide)
    (by decide)

/-- C4: for a directory with exactly `N = imgs.length` valid (decodable)
images and batch size `B > 0`, the enumerated list is partitioned into
consecutive batches of size `B` with only the final batch possibly smaller,
and the encoder is invoked exactly `⌈N / B⌉ = (N + B - 1) / B` times. -/
theorem c4_batch_partition_and_inference_count {T : Type} (imgs : List FileName)
    (B : Nat) (decode : FileName → Option T) (hB : 0 < B)
    (hdec : ∀ p ∈ imgs, (decode p).isSome) :
    (chunkList B imgs).flatten = imgs ∧
    (∀ c ∈ chunkList B imgs, c ≠ [] ∧ c.length ≤ B) ∧
    (∀ c ∈ (chunkList B imgs).dropLast, c.length = B) ∧
    inferenceCalls decode (chunkList B imgs) = (imgs.length + B - 1) / B := by
  obtain ⟨hf, hm, hd, hl⟩ := chunkList_spec B hB imgs
  refine ⟨hf, hm, hd, ?_⟩
  rw [inferenceCalls_eq_length decode _ (by rw [hf]; exact hdec), hl]

/-- Witness for C4: three decodable images with batch size two give two
inference calls. -/
theorem c4_witness :
    (chunkList 2 [aJpg, bJpg, goodJpg]).flatten = [aJpg, bJpg, goodJpg] ∧
    (∀ c ∈ chunkList 2 [aJpg, bJpg, goodJpg], c ≠ [] ∧ c.length ≤ 2) ∧
    (∀ c ∈ (chunkList 2 [aJpg, bJpg, goodJpg]).dropLast, c.length = 2) ∧
    inferenceCalls cDecodeTotal (chunkList 2 [aJpg, bJpg, goodJpg]) =
      ([aJpg, bJpg, goodJpg].length + 2 - 1) / 2 :=
  c4_batch_partition_and_inference_count [aJpg, bJpg, goodJpg] 2 cDecodeTotal
    (by decide) (by decide)

/-- C10: two runs of the dimensionality-reduction-and-clustering script on the
same features table produce identical reduced coordinates and identical
cluster labels whatever the ambient per-run randomness, because both the UMAP
reducer and the K-means clusterer are constructed with `random_state = 42`
(the hypotheses are the libraries' documented contract that a seeded estimator
ignores ambient randomness). -/
theorem c10_fixed_seed_determinism {M L : Type}
    (fitTransform : UMAPArgs → M → Nat → M)
    (fitPredict : KMeansArgs → M → Nat → L)
    (hU : ∀ a x e₁ e₂, a.random_state.isSome = true →
      fitTransform a x e₁ = fitTransform a x e₂)
    (hK : ∀ a x e₁ e₂, a.random_state.isSome = true →
      fitPredict a x e₁ = fitPredict a x e₂)
    (features : M) (e₁ e₂ : Nat) :
    umapKmeansRun fitTransform fitPredict features e₁ =
      umapKmeansRun fitTransform fitPredict features e₂ := by
  unfold umapKmeansRun perform_umap perform_clustering
  simp only []
  rw [hU ⟨N_NEIGHBORS, MIN_DIST, N_COMPONENTS, some 42⟩ features e₁ e₂ rfl]
  rw [hK ⟨30, some 42⟩ _ e₁ e₂ rfl]

/-- Witness for C10: a concrete library instantiation and two runs with
different ambient randomness agree. -/
theorem c10_witness :
    umapKmeansRun cFitTransform cFitPredict 7 0 =
      umapKmeansRun cFitTransform cFitPredict 7 99 :=
  c10_fixed_seed_determinism cFitTransform cFitPredict
    (fun _ _ _ _ _ => rfl) (fun _ _ _ _ _ => rfl) 7 0 99

/-- C7 is false as stated: in the older script a missing root directory is not
detected at dataset construction (`PatchDataset.__init__` performs no
existence check and `os.walk` over a missing directory yields nothing), so the
run fails only at the final `np.vstack` aggregation, not before processing
starts. -/
theorem c7_counterexample :
    patchDatasetInit false [aJpg] = [] ∧
    mainOld false [aJpg] cDecodeTotal cEncode 2 = .error .vstackEmpty ∧
    phaseOfErr .vstackEmpty ≠ Phase.construction :=
  ⟨rfl, rfl, by decide⟩

/-- C7 (amended): with a missing root directory, the NEW2 script fails at
dataset construction (`FileNotFoundError`), before any processing; the older
script silently enumerates nothing and fails only at the final aggregation
step with the `np.vstack` error. -/
theorem c7_amended_missing_directory {T R : Type} (files : List FileName)
    (decode : FileName → Option T) (encode : T → List R)
    (inferOk : List T → Bool) (B : Nat) :
    mainNew2 false files decode encode inferOk B = .error .dirNotFound ∧
    phaseOfErr .dirNotFound = .construction ∧
    mainOld false files decode encode B = .error .vstackEmpty ∧
    phaseOfErr .vstackEmpty = .aggregation :=
  ⟨rfl, rfl, rfl, rfl⟩

/-- Witness for C7 (amended), at a concrete input. -/
theorem c7_witness :
    mainNew2 false [goodJpg] cDecodeTotal cEncode cInferOkAll 1 =
        .error .dirNotFound ∧
    phaseOfErr .dirNotFound = .construction ∧
    mainOld false [goodJpg] cDecodeTotal cEncode 1 = .error .vstackEmpty ∧
    phaseOfErr .vstackEmpty = .aggregation :=
  c7_amended_missing_directory [goodJpg] cDecodeTotal cEncode cInferOkAll 1

/-- C8 is false as stated: when the wrapped TRIDENT subprocess fails (here
with return code 1), the wrapper logs the failure and `main` returns normally,
so the process exits with code 0 rather than a nonzero code. -/
theorem c8_counterexample :
    (tridentMain true true [slideSvs] 1).subprocessInvoked = true ∧
    (tridentMain true true [slideSvs] 1).loggedFailure = true ∧
    (1 : Int) ≠ 0 ∧
    (tridentMain true true [slideSvs] 1).exitCode = 0 :=
  ⟨rfl, rfl, by decide, rfl⟩

/-- C8 (amended): the segmentation wrapper's process exit code is 0 on every
modelled path — on success and also when the wrapped subprocess fails, in
which case the failure is only logged.  (A nonzero exit can arise only from an
unhandled exception outside the modelled control flow.) -/
theorem c8_amended_exit_code (s d : Bool) (files : List FileName) (rc : Int) :
    (tridentMain s d files rc).exitCode = 0 ∧
    (rc ≠ 0 → (tridentMain s d files rc).subprocessInvoked = true →
      (tridentMain s d files rc).loggedFailure = true) := by
  refine ⟨?_, ?_⟩
  · unfold tridentMain
    split
    · rfl
    · split
      · rfl
      · split
        · rfl
        · split <;> rfl
  · intro hrc _
    unfold tridentMain
    split
    · rfl
    · split
      · rfl
      · split
        · rfl
        · split
          · next h => exact absurd (eq_of_beq h) hrc
          · rfl

/-- Witness for C8 (amended), at a concrete input with a failing subprocess. -/
theorem c8_witness :
    (tridentMain true true [slideSvs] 3).exitCode = 0 ∧
    ((3 : Int) ≠ 0 → (tridentMain true true [slideSvs] 3).subprocessInvoked = true →
      (tridentMain true true [slideSvs] 3).loggedFailure = true) :=
  c8_amended_exit_code true true [slideSvs] 3

/-- C1 is false as stated: an image that fails to decode does not merely get
skipped — the logged-and-re-raised exception of `__getitem__` propagates
through the DataLoader iteration (which is outside the `try` of
`extract_embeddings`) and aborts the whole run, so the successfully decodable
image `good.jpg` receives no row either. -/
theorem c1_counterexample :
    cDecode badJpg = none ∧ cDecode goodJpg = some 1 ∧
    mainNew2 true [goodJpg, badJpg] cDecode cEncode cInferOkAll 2 =
      .error (.loadImage badJpg) :=
  ⟨rfl, rfl, rfl⟩

/-- C1 (amended): if some enumerated image fails to decode, the error is
recorded and re-raised; the NEW2 run aborts with a load error for an
undecodable image and produces no output table, so no image receives a row. -/
theorem c1_amended_decode_failure_aborts {T R : Type} (files : List FileName)
    (decode : FileName → Option T) (encode : T → List R)
    (inferOk : List T → Bool) (B : Nat) (hB : 0 < B) (p : FileName)
    (hp : p ∈ enumerateImages allowedExtsNew2 files) (hd : decode p = none) :
    ∃ q, decode q = none ∧
      mainNew2 true files decode encode inferOk B = .error (.loadImage q) :=
  mainNew2_error_of_undecodable files decode encode inferOk B hB p hp hd

/-- Witness for C1 (amended), at a concrete input with one corrupted image. -/
theorem c1_witness :
    ∃ q, cDecode q = none ∧
      mainNew2 true [goodJpg, badJpg] cDecode cEncode cInferOkAll 2 =
        .error (.loadImage q) :=
  c1_amended_decode_failure_aborts [goodJpg, badJpg] cDecode cEncode cInferOkAll
    2 (by decide) badJpg (by decide) (by decide)

/-- C2: the rows of the output table appear in the same relative order as the
images were enumerated (within and across batches), and the i-th source
identifier is exactly the path of the image that produced the i-th vector:
the collected names are an order-preserving sublist of the enumeration, and
the vectors are aligned pointwise with the names, each vector being the
encoding of its name's decoding. -/
theorem c2_order_preservation {T R : Type} (files : List FileName)
    (decode : FileName → Option T) (encode : T → List R)
    (inferOk : List T → Bool) (B : Nat) (hB : 0 < B)
    (vecs : List (List R)) (names : List FileName)
    (h : runPipelineNew2 true files decode encode inferOk B = .ok (vecs, names)) :
    List.Sublist names (enumerateImages allowedExtsNew2 files) ∧
    List.Forall₂ (fun v p => ∃ t, decode p = some t ∧ v = encode t) vecs names := by
  obtain ⟨blocks, hL, hne, hv⟩ :=
    runPipelineNew2_ok files decode encode inferOk B vecs names h
  obtain ⟨hsub, hf2, _, _⟩ := extractLoop_ok_spec decode encode inferOk _ blocks names hL
  subst hv
  refine ⟨?_, hf2⟩
  rw [← (chunkList_spec B hB (enumerateImages allowedExtsNew2 files)).1]
  exact hsub

/-- Witness for C2, at a concrete one-image run. -/
theorem c2_witness :
    List.Sublist [goodJpg] (enumerateImages allowedExtsNew2 [goodJpg]) ∧
    List.Forall₂ (fun v p => ∃ t, cDecodeTotal p = some t ∧ v = cEncode t)
      [[1]] [goodJpg] :=
  c2_order_preservation [goodJpg] cDecodeTotal cEncode cInferOkAll 1 (by decide)
    [[1]] [goodJpg] rfl

/-- C3: a run collecting zero vectors fails with a reported error and emits no
output — in particular an empty enumeration fails at dataset construction and
an all-undecodable enumeration aborts — while a run that completes with at
least one vector returns exactly the concatenation of its per-batch vector
blocks. -/
theorem c3_zero_vectors_fail_else_concat {T R : Type} (files : List FileName)
    (decode : FileName → Option T) (encode : T → List R)
    (inferOk : List T → Bool) (B : Nat) (hB : 0 < B) :
    (enumerateImages allowedExtsNew2 files = [] →
      mainNew2 true files decode encode inferOk B = .error .noValidImages) ∧
    ((∀ p ∈ enumerateImages allowedExtsNew2 files, decode p = none) →
      ∃ e, mainNew2 true files decode encode inferOk B = .error e) ∧
    (∀ vecs names,
      runPipelineNew2 true files decode encode inferOk B = .ok (vecs, names) →
      ∃ blocks,
        extractLoop decode encode inferOk
            (chunkList B (enumerateImages allowedExtsNew2 files)) =
          .ok (blocks, names) ∧ blocks ≠ [] ∧ vecs = blocks.flatten ∧
          vecs ≠ []) := by
  refine ⟨?_, ?_, ?_⟩
  · intro hE
    unfold mainNew2 runPipelineNew2 imageDatasetInit
    rw [hE]
    rfl
  · intro hall
    cases hE : enumerateImages allowedExtsNew2 files with
    | nil =>
      refine ⟨.noValidImages, ?_⟩
      unfold mainNew2 runPipelineNew2 imageDatasetInit
      rw [hE]
      rfl
    | cons a t =>
      have hp : a ∈ enumerateImages allowedExtsNew2 files := by
        rw [hE]
        exact List.mem_cons_self a t
      obtain ⟨q, _, hmain⟩ := mainNew2_error_of_undecodable files decode encode
        inferOk B hB a hp (hall a hp)
      exact ⟨.loadImage q, hmain⟩
  · intro vecs names h
    obtain ⟨blocks, hL, hne, hv⟩ :=
      runPipelineNew2_ok files decode encode inferOk B vecs names h
    obtain ⟨_, _, _, hblk⟩ :=
      extractLoop_ok_spec decode encode inferOk _ blocks names hL
    have hbatchne : ∀ b ∈ chunkList B (enumerateImages allowedExtsNew2 files),
        b ≠ [] := fun b hb => ((chunkList_spec B hB _).2.1 b hb).1
    have hfne : blocks.flatten ≠ [] :=
      flatten_ne_nil_of_blocks blocks _ hne hblk hbatchne
    exact ⟨blocks, hL, hne, hv, by rw [hv]; exact hfne⟩

/-- Witness for C3, at a concrete one-image run that succeeds. -/
theorem c3_witness :
    (enumerateImages allowedExtsNew2 [goodJpg] = [] →
      mainNew2 true [goodJpg] cDecodeTotal cEncode cInferOkAll 1 =
        .error .noValidImages) ∧
    ((∀ p ∈ enumerateImages allowedExtsNew2 [goodJpg], cDecodeTotal p = none) →
      ∃ e, mainNew2 true [goodJpg] cDecodeTotal cEncode cInferOkAll 1 =
        .error e) ∧
    (∀ vecs names,
      runPipelineNew2 true [goodJpg] cDecodeTotal cEncode cInferOkAll 1 =
        .ok (vecs, names) →
      ∃ blocks,
        extractLoop cDecodeTotal cEncode cInferOkAll
            (chunkList 1 (enumerateImages allowedExtsNew2 [goodJpg])) =
          .ok (blocks, names) ∧ blocks ≠ [] ∧ vecs = blocks.flatten ∧
          vecs ≠ []) :=
  c3_zero_vectors_fail_else_concat [goodJpg] cDecodeTotal cEncode cInferOkAll 1
    (by decide)

/-- C5 is false as stated: in a successful run there are no decode failures at
all (a decode failure aborts), yet the number of rows can be strictly smaller
than the number of enumerated images, because a whole batch is dropped when
its inference step fails; here 1 row ≠ 2 enumerated − 0 decode failures. -/
theorem c5_counterexample :
    runPipelineNew2 true [aJpg, bJpg] cDecodeTotal cEncode cInferOkNo2 1 =
      .ok ([[1]], [aJpg]) ∧
    (enumerateImages allowedExtsNew2 [aJpg, bJpg]).length = 2 ∧
    ((enumerateImages allowedExtsNew2 [aJpg, bJpg]).all
      fun p => (cDecodeTotal p).isSome) = true ∧
    ([[1]] : List (List Nat)).length ≠ 2 - 0 :=
  ⟨rfl, rfl, rfl, by decide⟩

/-- C5 (amended): in every successful NEW2 run all rows have the encoder's
fixed output width `D`; the row count is at most the number of enumerated
images and equals it minus the number of images in batches skipped by failing
inference; and a successful run has zero decode failures (every enumerated
image decodes). -/
theorem c5_amended_row_width_and_count {T R : Type} (files : List FileName)
    (decode : FileName → Option T) (encode : T → List R)
    (inferOk : List T → Bool) (B D : Nat) (hB : 0 < B)
    (hD : ∀ t, (encode t).length = D) (vecs : List (List R))
    (names : List FileName)
    (h : runPipelineNew2 true files decode encode inferOk B = .ok (vecs, names)) :
    (∀ v ∈ vecs, v.length = D) ∧
    vecs.length ≤ (enumerateImages allowedExtsNew2 files).length ∧
    vecs.length +
        skippedImages decode inferOk
          (chunkList B (enumerateImages allowedExtsNew2 files)) =
      (enumerateImages allowedExtsNew2 files).length ∧
    ∀ p ∈ enumerateImages allowedExtsNew2 files, (decode p).isSome := by
  obtain ⟨blocks, hL, hne, hv⟩ :=
    runPipelineNew2_ok files decode encode inferOk B vecs names h
  obtain ⟨hsub, hf2, hcount, hblk⟩ :=
    extractLoop_ok_spec decode encode inferOk _ blocks names hL
  subst hv
  have hflat : (chunkList B (enumerateImages allowedExtsNew2 files)).flatten =
      enumerateImages allowedExtsNew2 files := (chunkList_spec B hB _).1
  rw [hflat] at hcount
  have hlen : blocks.flatten.length = names.length := List.Forall₂.length_eq hf2
  refine ⟨?_, ?_, ?_, ?_⟩
  · intro v hvmem
    obtain ⟨p, _, t, _, hvt⟩ := forall2_exists_mem _ _ _ hf2 v hvmem
    rw [hvt]
    exact hD t
  · omega
  · omega
  · intro p hp
    cases hdp : decode p with
    | some t => rfl
    | none =>
      obtain ⟨q, _, hloop⟩ := extractLoop_error_of_none decode encode inferOk
        (chunkList B (enumerateImages allowedExtsNew2 files))
        ⟨p, by rw [hflat]; exact hp, hdp⟩
      rw [hloop] at hL
      simp at hL

/-- Witness for C5 (amended), at a concrete one-image run. -/
theorem c5_witness :
    (∀ v ∈ ([[1]] : List (List Nat)), v.length = 1) ∧
    ([[1]] : List (List Nat)).length ≤
      (enumerateImages allowedExtsNew2 [goodJpg]).length ∧
    ([[1]] : List (List Nat)).length +
        skippedImages cDecodeTotal cInferOkAll
          (chunkList 1 (enumerateImages allowedExtsNew2 [goodJpg])) =
      (enumerateImages allowedExtsNew2 [goodJpg]).length ∧
    ∀ p ∈ enumerateImages allowedExtsNew2 [goodJpg], (cDecodeTotal p).isSome :=
  c5_amended_row_width_and_count [goodJpg] cDecodeTotal cEncode cInferOkAll 1 1
    (by decide) (fun t => rfl) [[1]] [goodJpg] rfl

/-- C6 is false as stated: in the older script the source-identifier column is
the last column (`path`), not the first, and the embedding columns are named
by their bare integer index. -/
theorem c6_counterexample :
    mainOld true [aJpg] cDecodeTotal cEncode 1 =
      .ok (saveFeaturesOld [[1]] [aJpg]) ∧
    (saveFeaturesOld [[1]] [aJpg]).header.head? ≠ some ("filename") ∧
    (saveFeaturesOld [[1]] [aJpg]).header.head? ≠ some ("path") ∧
    (saveFeaturesOld [[1]] [aJpg]).header.getLast? = some ("path") :=
  ⟨rfl, by decide, by decide, by decide⟩

/-- C6 (amended): on success the NEW2 script writes the header `filename`
followed by one `dim_i` column per embedding dimension and one data row per
processed image (the row identifiers being the processed names, an
order-preserving sublist of the enumeration); the older script writes the
dimension columns first, named by bare index, with `path` as the last column,
and one data row per enumerated image. -/
theorem c6_amended_header_layout {T R : Type} (files : List FileName)
    (decode : FileName → Option T) (encode : T → List R)
    (inferOk : List T → Bool) (B D : Nat) (hB : 0 < B)
    (hD : ∀ t, (encode t).length = D) :
    (∀ csv, mainNew2 true files decode encode inferOk B = .ok csv →
      csv.header =
        "filename" :: ((List.range D).map fun i => "dim_" ++ toString i) ∧
      ∃ names, csv.rows.length = names.length ∧
        List.Sublist names (enumerateImages allowedExtsNew2 files) ∧
        csv.rows.map Prod.fst = names) ∧
    (∀ csv, mainOld true files decode encode B = .ok csv →
      csv.header = ((List.range D).map fun i => toString i) ++ ["path"] ∧
      csv.rows.length = (patchDatasetInit true files).length) := by
  constructor
  · intro csv hcsv
    unfold mainNew2 at hcsv
    cases hrp : runPipelineNew2 true files decode encode inferOk B with
    | error e => rw [hrp] at hcsv; simp at hcsv
    | ok pr =>
      obtain ⟨vecs, names⟩ := pr
      rw [hrp] at hcsv
      simp only [Except.ok.injEq] at hcsv
      subst hcsv
      obtain ⟨blocks, hL, hne, hv⟩ :=
        runPipelineNew2_ok files decode encode inferOk B vecs names hrp
      obtain ⟨hsub, hf2, _, hblk⟩ :=
        extractLoop_ok_spec decode encode inferOk _ blocks names hL
      have hbatchne : ∀ b ∈ chunkList B (enumerateImages allowedExtsNew2 files),
          b ≠ [] := fun b hb => ((chunkList_spec B hB _).2.1 b hb).1
      have hfne : blocks.flatten ≠ [] :=
        flatten_ne_nil_of_blocks blocks _ hne hblk hbatchne
      have hwidth : ∀ v ∈ vecs, v.length = D := by
        intro v hvmem
        rw [hv] at hvmem
        obtain ⟨p, _, t, _, hvt⟩ := forall2_exists_mem _ _ _ hf2 v hvmem
        rw [hvt]
        exact hD t
      have hvne : vecs ≠ [] := by rw [hv]; exact hfne
      have hheadD : (vecs.headD []).length = D := by
        match vecs, hvne with
        | v :: vs, _ => exact hwidth v (List.mem_cons_self v vs)
      have hlen : vecs.length = names.length := by
        rw [hv]
        exact List.Forall₂.length_eq hf2
      have hsublen : names.length ≤ names.length := le_refl _
      refine ⟨?_, names, ?_, ?_, ?_⟩
      · unfold saveEmbeddingsNew2
        rw [hheadD]
      · unfold saveEmbeddingsNew2
        simp only [List.length_zip]
        omega
      · rw [← (chunkList_spec B hB (enumerateImages allowedExtsNew2 files)).1]
        exact hsub
      · unfold saveEmbeddingsNew2
        simp only []
        exact List.map_fst_zip names vecs (by omega)
  · intro csv hcsv
    unfold mainOld at hcsv
    cases hfo : extractFeaturesOld decode encode
        (chunkList B (patchDatasetInit true files)) with
    | error e => rw [hfo] at hcsv; simp at hcsv
    | ok pr =>
      obtain ⟨vecs, names⟩ := pr
      rw [hfo] at hcsv
      simp only [Except.ok.injEq] at hcsv
      subst hcsv
      obtain ⟨blocks, hL, hne, hv⟩ :=
        extractFeaturesOld_ok decode encode _ vecs names hfo
      obtain ⟨hnames, hf2, hblk⟩ :=
        extractLoopOld_ok_spec decode encode _ blocks names hL
      have hflat : (chunkList B (patchDatasetInit true files)).flatten =
          patchDatasetInit true files := (chunkList_spec B hB _).1
      have hbatchne : ∀ b ∈ chunkList B (patchDatasetInit true files),
          b ≠ [] := fun b hb => ((chunkList_spec B hB _).2.1 b hb).1
      have hfne : blocks.flatten ≠ [] :=
        flatten_ne_nil_of_blocks blocks _ hne hblk hbatchne
      have hvne : vecs ≠ [] := by rw [hv]; exact hfne
      have hwidth : ∀ v ∈ vecs, v.length = D := by
        intro v hvmem
        rw [hv] at hvmem
        obtain ⟨p, _, t, _, hvt⟩ := forall2_exists_mem _ _ _ hf2 v hvmem
        rw [hvt]
        exact hD t
      have hheadD : (vecs.headD []).length = D := by
        match vecs, hvne with
        | v :: vs, _ => exact hwidth v (List.mem_cons_self v vs)
      have hlen : vecs.length = names.length := by
        rw [hv]
        exact List.Forall₂.length_eq hf2
      have hnameslen : names.length = (patchDatasetInit true files).length := by
        rw [hnames, hflat]
      refine ⟨?_, ?_⟩
      · unfold saveFeaturesOld
        rw [hheadD]
      · unfold saveFeaturesOld
        simp only [List.length_zip]
        omega

/-- Witness for C6 (amended), at a concrete one-image run. -/
theorem c6_witness :
    (∀ csv, mainNew2 true [goodJpg] cDecodeTotal cEncode cInferOkAll 1 =
        .ok csv →
      csv.header =
        "filename" :: ((List.range 1).map fun i => "dim_" ++ toString i) ∧
      ∃ names, csv.rows.length = names.length ∧
        List.Sublist names (enumerateImages allowedExtsNew2 [goodJpg]) ∧
        csv.rows.map Prod.fst = names) ∧
    (∀ csv, mainOld true [goodJpg] cDecodeTotal cEncode 1 = .ok csv →
      csv.header = ((List.range 1).map fun i => toString i) ++ ["path"] ∧
      csv.rows.length = (patchDatasetInit true [goodJpg]).length) :=
  c6_amended_header_layout [goodJpg] cDecodeTotal cEncode cInferOkAll 1 1
    (by decide) (fun t => rfl)

end Pank
